import Mathlib

/-!
Shallow embedding of `proxygen/httpserver/samples/hq/SampleHandlers.h`
(the sample HTTP handlers of the demo server: `EchoHandler`,
`RandBytesGenHandler`, `WaitReleaseHandler`).

Pure member functions become Lean functions; the mutable per-handler
fields (`respBodyLen_`, `paused_`, `eomSent_`) become an explicit
`RandState` record, the thread-local random-byte buffer is passed and
returned explicitly, and the side effects issued on the transaction
(`sendHeaders`, `sendBody`, `sendEOM`, `sendAbort`) become a list of
`TxnOut` commands.
-/

/-- `RandBytesGenHandler::kMaxAllowedLength` (10 MB). -/
def kMaxAllowedLength : Nat := 10 * 1024 * 1024

/-- `RandBytesGenHandler::kMaxChunkSize` (100 KB). -/
def kMaxChunkSize : Nat := 100 * 1024

/-- `RandBytesGenHandler::kErrorMsg`, the fixed oversize message. -/
def kErrorMsg : String :=
  "More than 10 MB of data requested. Please request for smaller size."

/-- The error message built in `onHeadersComplete` on a length-parse failure. -/
def kInvalidUrlMsg (path : List Char) : List Char :=
  ("Invalid URL: cannot extract requested response-length from url path: ").toList
    ++ path

/-- One step of `std::default_random_engine` (a minstd linear congruential
generator); the exact stream is implementation-defined in C++ and the
handlers rely only on it being one fixed deterministic sequence. -/
def lcgNext (x : Nat) : Nat := 16807 * x % 2147483647

/-- Modelled from the spec: `random_bytes_engine`
(`std::independent_bits_engine` over `std::default_random_engine`) is
default-constructed with its fixed default seed on every `randBytes` call,
so each call produces the same deterministic byte stream; the
implementation-defined bit extraction is modelled as the LCG state reduced
mod 256.  `lcgStream x k` is the list of the next `k` bytes from engine
state `x`. -/
def lcgStream : Nat → Nat → List Nat
  | _, 0 => []
  | x, k + 1 => lcgNext x % 256 :: lcgStream (lcgNext x) k

/-- The first `k` bytes produced by a freshly default-constructed engine. -/
def rbeBytes (k : Nat) : List Nat := lcgStream 1 k

/-- `RandBytesGenHandler::randBytes`: a thread-local monotonically growing
buffer `data`; when it is shorter than `len` it is resized and a fresh
engine fills only the newly added region; the returned IOBuf wraps the
first `len` bytes of the buffer.  The buffer is `static folly::ThreadLocal`
state, passed and returned explicitly here. -/
def randBytes (buf : List Nat) (len : Nat) : List Nat × List Nat :=
  let previousSize := buf.length
  let data := if previousSize < len then buf ++ rbeBytes (len - previousSize) else buf
  (data.take len, data)

/-- Lowercase hex digit, as produced by `folly::hexlify`. -/
def hexDigitChar (d : Nat) : Char :=
  if d < 10 then Char.ofNat (48 + d) else Char.ofNat (87 + d)

/-- `folly::hexlify`: two lowercase hex characters per byte. -/
def hexlify : List Nat → List Char
  | [] => []
  | b :: bs => hexDigitChar (b / 16) :: hexDigitChar (b % 16) :: hexlify bs

/-- `std::string::resize`: truncate, or pad with NUL characters when growing. -/
def resizeStr (s : List Char) (n : Nat) : List Char :=
  s.take n ++ List.replicate (n - s.length) (Char.ofNat 0)

/-- `RandBytesGenHandler::genRandBytes`: obtain `len / 2 + 1` raw random
bytes, hex-encode them and resize the string to exactly `len` characters. -/
def genRandBytes (buf : List Nat) (len : Nat) : List Char × List Nat :=
  let contentLength := len / 2 + 1
  let rb := randBytes buf contentLength
  (resizeStr (hexlify rb.1) len, rb.2)

/-- The mutable fields of `RandBytesGenHandler`. -/
structure RandState where
  respBodyLen : Nat
  paused : Bool
  eomSent : Bool
  deriving DecidableEq, Repr

/-- Commands a handler issues on its `HTTPTransaction`.  A `headers`
command records the status code, the status message and the explicit
`setWantsKeepalive` value if one was set. -/
inductive TxnOut where
  | headers (status : Nat) (statusMsg : String) (keepAlive : Option Bool)
  | body (content : List Char)
  | eom
  | abort
  deriving DecidableEq, Repr

/-- Request method, as far as the handlers inspect it. -/
inductive Method
  | get
  | post
  deriving DecidableEq, Repr

/-- The for-loop of `RandBytesGenHandler::sendBodyInChunks`.  `fuel` is the
remaining iteration budget (`iter - i`) and `i` the loop counter; `sched i`
tells whether the transport delivers an egress-pause notification while the
`i`-th chunk is being written (it sets `paused_`, which the loop condition
reads before the next iteration).  `std::fmin` is exact on the values that
decide the minimum here and is modelled as `Nat.min`. -/
def sendLoop : Nat → Nat → RandState → List Nat → (Nat → Bool) →
    List (List Char) × RandState × List Nat
  | 0, _, s, buf, _ => ([], s, buf)
  | fuel + 1, i, s, buf, sched =>
    if s.paused then ([], s, buf)
    else
      let chunkSize := min kMaxChunkSize s.respBodyLen
      let gen := genRandBytes buf chunkSize
      let s1 : RandState :=
        { s with respBodyLen := s.respBodyLen - chunkSize, paused := sched i }
      let rest := sendLoop fuel (i + 1) s1 gen.2 sched
      (gen.1 :: rest.1, rest.2)

/-- The iteration count of `sendBodyInChunks`: `respBodyLen_ / kMaxChunkSize`,
plus one when there is a remainder. -/
def chunkIters (n : Nat) : Nat :=
  n / kMaxChunkSize + (if n % kMaxChunkSize = 0 then 0 else 1)

/-- `RandBytesGenHandler::sendBodyInChunks`: run the chunk loop, then send
EOM exactly when not paused, EOM not yet sent and no bytes remain. -/
def sendBodyInChunks (s : RandState) (buf : List Nat) (sched : Nat → Bool) :
    List TxnOut × RandState × List Nat :=
  let r := sendLoop (chunkIters s.respBodyLen) 0 s buf sched
  let s1 := r.2.1
  if s1.paused = false ∧ s1.eomSent = false ∧ s1.respBodyLen = 0 then
    (r.1.map TxnOut.body ++ [TxnOut.eom], { s1 with eomSent := true }, r.2.2)
  else
    (r.1.map TxnOut.body, s1, r.2.2)

/-- Modelled from the spec: `folly::to<uint64_t>` applied to the path after
the leading separator -- a nonempty all-decimal-digit string whose value
fits in 64 bits parses to that value; anything else (empty string,
non-digit character, overflow) raises `ConversionError`. -/
def parseUInt (cs : List Char) : Option Nat :=
  if cs ≠ [] ∧ cs.all Char.isDigit then
    let v := cs.foldl (fun acc c => acc * 10 + (c.toNat - 48)) 0
    if v < 2 ^ 64 then some v else none
  else none

/-- Outcome of `RandBytesGenHandler::onHeadersComplete`.  `checkFailed` is
the `CHECK(msg->getPath().size() > 1)` process abort; `parseError` carries
the commands of the 400 response after which `respBodyLen_` is left
uninitialized (so no continuation state is modelled); `responded` carries
the commands together with the handler state and buffer afterwards. -/
inductive HROutcome where
  | checkFailed
  | parseError (out : List TxnOut)
  | responded (out : List TxnOut) (s : RandState) (buf : List Nat)
  deriving DecidableEq, Repr

/-- `RandBytesGenHandler::sendError`: 400 response with keep-alive set true
and the message as body. -/
def sendErrorOut (msg : List Char) : List TxnOut :=
  [TxnOut.headers 400 "Bad Request" (some true), TxnOut.body msg]

/-- `RandBytesGenHandler::onHeadersComplete`. -/
def randOnHeadersComplete (path : List Char) (method : Method) (buf : List Nat)
    (sched : Nat → Bool) : HROutcome :=
  if path.length ≤ 1 then HROutcome.checkFailed
  else
    match parseUInt (path.drop 1) with
    | none => HROutcome.parseError (sendErrorOut (kInvalidUrlMsg path))
    | some len =>
      if len > kMaxAllowedLength then
        HROutcome.responded (sendErrorOut kErrorMsg.toList)
          { respBodyLen := len, paused := false, eomSent := false } buf
      else
        let s0 : RandState := { respBodyLen := len, paused := false, eomSent := false }
        if method = Method.get then
          let r := sendBodyInChunks s0 buf sched
          HROutcome.responded (TxnOut.headers 200 "Ok" none :: r.1) r.2.1 r.2.2
        else
          HROutcome.responded [TxnOut.headers 200 "Ok" none] s0 buf

/-- Lifecycle callbacks `RandBytesGenHandler` can receive after the headers
phase; a `sched` argument carries the mid-loop pause notifications the
transport may deliver during that activation of `sendBodyInChunks`. -/
inductive REvent where
  | onBody (sched : Nat → Bool)
  | onEOMEv
  | onEgressPaused
  | onEgressResumed (sched : Nat → Bool)

/-- One callback of `RandBytesGenHandler`: `onBody` re-invokes the emission,
`onEgressPaused` sets `paused_`, `onEgressResumed` clears it and re-invokes
the emission, `onEOM` does nothing. -/
def stepREv (s : RandState) (buf : List Nat) : REvent → List TxnOut × RandState × List Nat
  | REvent.onBody sched => sendBodyInChunks s buf sched
  | REvent.onEOMEv => ([], s, buf)
  | REvent.onEgressPaused => ([], { s with paused := true }, buf)
  | REvent.onEgressResumed sched => sendBodyInChunks { s with paused := false } buf sched

/-- A sequence of callbacks, with the emitted commands concatenated. -/
def runREv (s : RandState) (buf : List Nat) : List REvent → List TxnOut × RandState × List Nat
  | [] => ([], s, buf)
  | e :: evs =>
    let r1 := stepREv s buf e
    let r2 := runREv r1.2.1 r1.2.2 evs
    (r1.1 ++ r2.1, r2.2)

/-- Whether an event is an egress-resume notification. -/
def isResume : REvent → Bool
  | REvent.onEgressResumed _ => true
  | _ => false

/-- The schedule on which the transport never pauses the handler. -/
def schedFalse : Nat → Bool := fun _ => false

def isEom : TxnOut → Bool
  | TxnOut.eom => true
  | _ => false

def isBodyOut : TxnOut → Bool
  | TxnOut.body _ => true
  | _ => false

/-- Number of end-of-message commands in an output list. -/
def countEom (l : List TxnOut) : Nat := (l.filter isEom).length

/-- Number of body-chunk commands in an output list. -/
def countBody (l : List TxnOut) : Nat := (l.filter isBodyOut).length

def hexCount : TxnOut → Nat
  | TxnOut.body c => c.length
  | _ => 0

/-- Total number of body characters in an output list. -/
def totalHex (l : List TxnOut) : Nat := (l.map hexCount).sum

/-- Total number of characters in a list of chunks. -/
def chunkSum (cs : List (List Char)) : Nat := (cs.map List.length).sum

/-! The EchoHandler.  Request header names are lists of characters (values
are opaque strings); its transaction commands also record the response
header mapping. -/

/-- `HTTPMessage::kHTTPVersion09`, the minimal/legacy protocol marker. -/
def kHTTPVersion09 : Nat × Nat := (0, 9)

/-- `BaseQuicHandler::getH1QFooter`, the fixed decorative ASCII block. -/
def kH1QFooter : String :=
  " __    __  .___________.___________..______      ___ ___       ___    ______\n"
  ++ "|  |  |  | |           |           ||   _  \\    /  // _ \\     / _ \\  |      \\\n"
  ++ "|  |__|  | `---|  |----`---|  |----`|  |_)  |  /  /| | | |   | (_) | `----)  |\n"
  ++ "|   __   |     |  |        |  |     |   ___/  /  / | | | |    \\__, |     /  /\n"
  ++ "|  |  |  |     |  |        |  |     |  |     /  /  | |_| |  __  / /     |__|\n"
  ++ "|__|  |__|     |__|        |__|     | _|    /__/    \\___/  (__)/_/       __\n"
  ++ "                                                                        (__)\n"
  ++ "\n"
  ++ "\n"
  ++ "____    __    ____  __    __       ___   .___________.\n"
  ++ "\\   \\  /  \\  /   / |  |  |  |     /   \\  |           |\n"
  ++ " \\   \\/    \\/   /  |  |__|  |    /  ^  \\ `---|  |----`\n"
  ++ "  \\            /   |   __   |   /  /_\\  \\    |  |\n"
  ++ "   \\    /\\    /    |  |  |  |  /  _____  \\   |  |\n"
  ++ "    \\__/  \\__/     |__|  |__| /__/     \\__\\  |__|\n"
  ++ "\n"
  ++ "____    ____  _______     ___      .______\n"
  ++ "\\   \\  /   / |   ____|   /   \\     |   _  \\\n"
  ++ " \\   \\/   /  |  |__     /  ^  \\    |  |_)  |\n"
  ++ "  \\_    _/   |   __|   /  /_\\  \\   |      /\n"
  ++ "    |  |     |  |____ /  _____  \\  |  |\\  \\----.\n"
  ++ "    |__|     |_______/__/     \\__\\ | _| `._____|\n"
  ++ "\n"
  ++ " __       _______.    __  .___________.______\n"
  ++ "|  |     /       |   |  | |           |      \\\n"
  ++ "|  |    |   (----`   |  | `---|  |----`----)  |\n"
  ++ "|  |     \\   \\       |  |     |  |        /  /\n"
  ++ "|  | .----)   |      |  |     |  |       |__|\n"
  ++ "|__| |_______/       |__|     |__|        __\n"
  ++ "                                         (__)\n"

/-- An inbound request message, as far as EchoHandler inspects it. -/
structure HTTPMsgIn where
  headers : List (List Char × String)
  version : Nat × Nat

/-- Commands EchoHandler issues on its transaction; `headers` records the
response's status, status message, header mapping and keep-alive flag. -/
inductive EchoOut where
  | headers (status : Nat) (statusMsg : String)
      (respHeaders : List (List Char × String)) (keepAlive : Bool)
  | body (content : List Char)
  | eom
  deriving DecidableEq, Repr

/-- Modelled from the spec: the hop-by-hop header names removed by
`HTTPMessage::stripPerHopHeaders` (proxygen library code whose source is
not part of this tree); matching is case-insensitive. -/
def perHopHeaderNames : List (List Char) :=
  ["connection".toList, "keep-alive".toList, "proxy-authenticate".toList,
   "proxy-authorization".toList, "proxy-connection".toList, "te".toList,
   "trailer".toList, "transfer-encoding".toList, "upgrade".toList]

/-- Lowercase a header name for case-insensitive matching. -/
def lowerName (n : List Char) : List Char := n.map Char.toLower

/-- Modelled from the spec: strip hop-by-hop headers from a header
mapping. -/
def stripPerHopHeaders (hs : List (List Char × String)) : List (List Char × String) :=
  hs.filter fun p => ! perHopHeaderNames.contains (lowerName p.1)

/-- The per-header transform of `EchoHandler::onHeadersComplete`: each
request header `(name, value)` becomes `("x-echo-" + name, value)`. -/
def echoXHeaders (hs : List (List Char × String)) : List (List Char × String) :=
  hs.map fun p => ("x-echo-".toList ++ p.1, p.2)

/-- `EchoHandler::onHeadersComplete`: build the 200 response carrying the
`x-echo-`-prefixed copy of every request header, strip hop-by-hop headers,
mark keep-alive, send the headers, and remember whether the request used
the legacy 0.9 protocol marker (`sendFooter_`). -/
def echoOnHeadersComplete (msg : HTTPMsgIn) : List EchoOut × Bool :=
  ([EchoOut.headers 200 "Ok" (stripPerHopHeaders (echoXHeaders msg.headers)) true],
   decide (msg.version = kHTTPVersion09))

/-- `EchoHandler::onEOM`: emit the footer first when `sendFooter_` is set,
then send end-of-message. -/
def echoOnEOM (sendFooter : Bool) : List EchoOut :=
  if sendFooter then [EchoOut.body kH1QFooter.toList, EchoOut.eom] else [EchoOut.eom]

def isEomE : EchoOut → Bool
  | EchoOut.eom => true
  | _ => false

/-- Number of end-of-message commands in an EchoHandler output list. -/
def countEomE (l : List EchoOut) : Nat := (l.filter isEomE).length

/-! The WaitReleaseHandler and its coordinator registry. -/

/-- The fixed literal body chunk sent by `WaitReleaseHandler::release`. -/
def releasedChunk : List Char := ("released\n").toList

/-- `WaitReleaseHandler::release`: the commands the closure passed to
`runImmediatelyOrRunInEventBaseThreadAndWait` executes on the
transaction's owning event base (synchronously when the caller is already
on it, otherwise via a blocking handoff): one terminating body chunk, then
end-of-message. -/
def waitReleaseActions : List TxnOut := [TxnOut.body releasedChunk, TxnOut.eom]

/-- Modelled from the spec: the coordinator's `release(id)` over the
mutex-guarded registry (its source is declared but not defined in this
tree).  A suspended transaction is represented by its pending command log;
an absent id is a silent no-op; a present id has the release commands run
on the transaction's owning context (appended to its log) and its entry
removed from the registry. -/
def coordRelease (reg : List (Nat × List TxnOut)) (rid : Nat) :
    List (Nat × List TxnOut) × Option (List TxnOut) :=
  match reg.find? (fun p => p.1 == rid) with
  | none => (reg, none)
  | some p => (reg.filter (fun q => q.1 != rid), some (p.2 ++ waitReleaseActions))

/-! Basic facts about the byte generator. -/

theorem lcgStream_length (x k : Nat) : (lcgStream x k).length = k := by
  induction k generalizing x with
  | zero => rfl
  | succ k ih => simp [lcgStream, ih]

theorem hexlify_length (bs : List Nat) : (hexlify bs).length = 2 * bs.length := by
  induction bs with
  | nil => rfl
  | cons b bs ih => simp [hexlify, ih]; omega

theorem randBytes_snd_length (buf : List Nat) (len : Nat) :
    ((randBytes buf len).2).length = max buf.length len := by
  unfold randBytes
  by_cases h : buf.length < len
  · simp [h, rbeBytes, lcgStream_length]
    omega
  · simp [h]
    omega

theorem randBytes_fst (buf : List Nat) (len : Nat) :
    (randBytes buf len).1 = ((randBytes buf len).2).take len := rfl

theorem randBytes_fst_length (buf : List Nat) (len : Nat) :
    ((randBytes buf len).1).length = len := by
  rw [randBytes_fst, List.length_take, randBytes_snd_length]
  omega

theorem randBytes_snd_ext (buf : List Nat) (len : Nat) :
    ∃ e, (randBytes buf len).2 = buf ++ e := by
  unfold randBytes
  by_cases h : buf.length < len
  · exact ⟨rbeBytes (len - buf.length), by simp [h]⟩
  · exact ⟨[], by simp [h]⟩

theorem randBytes_stable (buf : List Nat) (len : Nat) (h : len ≤ buf.length) :
    randBytes buf len = (buf.take len, buf) := by
  unfold randBytes
  simp [Nat.not_lt.mpr h]

theorem genRandBytes_fst (buf : List Nat) (len : Nat) :
    (genRandBytes buf len).1 = (hexlify (randBytes buf (len / 2 + 1)).1).take len := by
  unfold genRandBytes resizeStr
  have hlen : (hexlify (randBytes buf (len / 2 + 1)).1).length = 2 * (len / 2 + 1) := by
    rw [hexlify_length, randBytes_fst_length]
  simp only [hlen]
  have : len - 2 * (len / 2 + 1) = 0 := by omega
  simp [this]

theorem genRandBytes_fst_length (buf : List Nat) (len : Nat) :
    ((genRandBytes buf len).1).length = len := by
  rw [genRandBytes_fst, List.length_take, hexlify_length, randBytes_fst_length]
  omega

theorem genRandBytes_snd (buf : List Nat) (len : Nat) :
    (genRandBytes buf len).2 = (randBytes buf (len / 2 + 1)).2 := rfl

theorem genRandBytes_snd_ext (buf : List Nat) (len : Nat) :
    ∃ e, (genRandBytes buf len).2 = buf ++ e := by
  rw [genRandBytes_snd]; exact randBytes_snd_ext buf _

theorem genRandBytes_snd_length (buf : List Nat) (len : Nat) :
    ((genRandBytes buf len).2).length = max buf.length (len / 2 + 1) := by
  rw [genRandBytes_snd, randBytes_snd_length]

/-! Facts about the chunk-emission loop. -/

theorem sendLoop_paused (fuel i : Nat) (s : RandState) (buf : List Nat)
    (sched : Nat → Bool) (h : s.paused = true) :
    sendLoop fuel i s buf sched = ([], s, buf) := by
  cases fuel with
  | zero => rfl
  | succ fuel => simp [sendLoop, h]

theorem sendLoop_step (fuel i : Nat) (s : RandState) (buf : List Nat)
    (sched : Nat → Bool) (h : s.paused = false) :
    sendLoop (fuel + 1) i s buf sched =
      ((genRandBytes buf (min kMaxChunkSize s.respBodyLen)).1 ::
        (sendLoop fuel (i + 1)
          ⟨s.respBodyLen - min kMaxChunkSize s.respBodyLen, sched i, s.eomSent⟩
          (genRandBytes buf (min kMaxChunkSize s.respBodyLen)).2 sched).1,
       (sendLoop fuel (i + 1)
          ⟨s.respBodyLen - min kMaxChunkSize s.respBodyLen, sched i, s.eomSent⟩
          (genRandBytes buf (min kMaxChunkSize s.respBodyLen)).2 sched).2) := by
  simp [sendLoop, h]

theorem chunkSum_cons (c : List Char) (cs : List (List Char)) :
    chunkSum (c :: cs) = c.length + chunkSum cs := by
  simp [chunkSum]

theorem sendLoop_conserve (fuel : Nat) : ∀ (i : Nat) (s : RandState)
    (buf : List Nat) (sched : Nat → Bool),
    chunkSum (sendLoop fuel i s buf sched).1 + (sendLoop fuel i s buf sched).2.1.respBodyLen
      = s.respBodyLen ∧
    (sendLoop fuel i s buf sched).2.1.eomSent = s.eomSent := by
  induction fuel with
  | zero => intro i s buf sched; simp [sendLoop, chunkSum]
  | succ fuel ih =>
    intro i s buf sched
    by_cases hp : s.paused = true
    · simp [sendLoop_paused _ _ _ _ _ hp, chunkSum]
    · have hp' : s.paused = false := by simpa using hp
      have hmin : min kMaxChunkSize s.respBodyLen ≤ s.respBodyLen := Nat.min_le_right _ _
      obtain ⟨h1, h2⟩ := ih (i + 1)
        ⟨s.respBodyLen - min kMaxChunkSize s.respBodyLen, sched i, s.eomSent⟩
        (genRandBytes buf (min kMaxChunkSize s.respBodyLen)).2 sched
      rw [sendLoop_step fuel i s buf sched hp']
      simp only [chunkSum_cons, genRandBytes_fst_length]
      dsimp only at h1 h2
      constructor
      · omega
      · exact h2

theorem sendLoop_buf_ext (fuel : Nat) : ∀ (i : Nat) (s : RandState)
    (buf : List Nat) (sched : Nat → Bool),
    ∃ e, (sendLoop fuel i s buf sched).2.2 = buf ++ e := by
  induction fuel with
  | zero => intro i s buf sched; exact ⟨[], by simp [sendLoop]⟩
  | succ fuel ih =>
    intro i s buf sched
    by_cases hp : s.paused = true
    · exact ⟨[], by simp [sendLoop_paused _ _ _ _ _ hp]⟩
    · have hp' : s.paused = false := by simpa using hp
      obtain ⟨e1, he1⟩ := genRandBytes_snd_ext buf (min kMaxChunkSize s.respBodyLen)
      obtain ⟨e2, he2⟩ := ih (i + 1)
        { s with respBodyLen := s.respBodyLen - min kMaxChunkSize s.respBodyLen,
                 paused := sched i }
        (genRandBytes buf (min kMaxChunkSize s.respBodyLen)).2 sched
      refine ⟨e1 ++ e2, ?_⟩
      simp only [sendLoop, hp', if_false, Bool.false_eq_true]
      rw [he2, he1, List.append_assoc]

theorem kMaxChunkSize_eq : kMaxChunkSize = 102400 := rfl

theorem kMaxAllowedLength_eq : kMaxAllowedLength = 10485760 := rfl

theorem chunkIters_zero : chunkIters 0 = 0 := rfl

theorem chunkIters_pos (n : Nat) (h : 0 < n) : 0 < chunkIters n := by
  unfold chunkIters
  rw [kMaxChunkSize_eq]
  split <;> omega

theorem chunkIters_small (n : Nat) (h0 : 0 < n) (h : n ≤ kMaxChunkSize) :
    chunkIters n = 1 := by
  unfold chunkIters
  rw [kMaxChunkSize_eq] at h ⊢
  split <;> omega

theorem chunkIters_big (n : Nat) (h : kMaxChunkSize < n) :
    chunkIters n = chunkIters (n - kMaxChunkSize) + 1 := by
  unfold chunkIters
  rw [kMaxChunkSize_eq] at h ⊢
  split <;> split <;> omega

/-- On an uninstructed run (no egress pause), the loop with its computed
iteration budget drains the whole requested length: the emitted chunks sum
to `n`, the final state has no bytes left, there are exactly `fuel` chunks,
every chunk is at most `kMaxChunkSize` characters and every chunk except
possibly the last is exactly `kMaxChunkSize` characters. -/
theorem sendLoop_drain (fuel : Nat) : ∀ (i n : Nat) (e0 : Bool) (buf : List Nat),
    fuel = chunkIters n →
    chunkSum (sendLoop fuel i ⟨n, false, e0⟩ buf schedFalse).1 = n ∧
    (sendLoop fuel i ⟨n, false, e0⟩ buf schedFalse).2.1 = ⟨0, false, e0⟩ ∧
    (sendLoop fuel i ⟨n, false, e0⟩ buf schedFalse).1.length = fuel ∧
    (∀ c ∈ (sendLoop fuel i ⟨n, false, e0⟩ buf schedFalse).1, c.length ≤ kMaxChunkSize) ∧
    (∀ c ∈ (sendLoop fuel i ⟨n, false, e0⟩ buf schedFalse).1.dropLast,
      c.length = kMaxChunkSize) := by
  induction fuel with
  | zero =>
    intro i n e0 buf hf
    have hn : n = 0 := by
      by_contra hne
      have := chunkIters_pos n (Nat.pos_of_ne_zero hne)
      omega
    subst hn
    simp [sendLoop, chunkSum]
  | succ fuel ih =>
    intro i n e0 buf hf
    have hn : 0 < n := by
      by_contra hne
      have hz : n = 0 := by omega
      rw [hz, chunkIters_zero] at hf
      omega
    rw [sendLoop_step fuel i ⟨n, false, e0⟩ buf schedFalse rfl]
    dsimp only
    simp only [schedFalse]
    have hfuel : fuel = chunkIters (n - min kMaxChunkSize n) := by
      by_cases hbig : kMaxChunkSize < n
      · rw [Nat.min_eq_left (Nat.le_of_lt hbig)]
        have := chunkIters_big n hbig
        omega
      · have hle : n ≤ kMaxChunkSize := by omega
        rw [Nat.min_eq_right hle]
        simp only [Nat.sub_self, chunkIters_zero]
        have := chunkIters_small n hn hle
        omega
    obtain ⟨ihsum, ihst, ihlen, ihle, ihlast⟩ :=
      ih (i + 1) (n - min kMaxChunkSize n) e0
        (genRandBytes buf (min kMaxChunkSize n)).2 hfuel
    have hminle : min kMaxChunkSize n ≤ n := Nat.min_le_right _ _
    refine ⟨?_, ihst, ?_, ?_, ?_⟩
    · rw [chunkSum_cons, genRandBytes_fst_length, ihsum]
      omega
    · simp [ihlen]
    · intro c hc
      rcases List.mem_cons.mp hc with hc | hc
      · rw [hc, genRandBytes_fst_length]
        exact Nat.min_le_left _ _
      · exact ihle c hc
    · cases hr : (sendLoop fuel (i + 1) ⟨n - min kMaxChunkSize n, false, e0⟩
          (genRandBytes buf (min kMaxChunkSize n)).2 schedFalse).1 with
      | nil => simp [hr, List.dropLast]
      | cons x xs =>
        have hrest : 0 < n - min kMaxChunkSize n := by
          by_contra hz
          have hz0 : n - min kMaxChunkSize n = 0 := by omega
          rw [hz0, chunkIters_zero] at hfuel
          rw [hfuel] at hr
          simp [sendLoop] at hr
        have hbig : kMaxChunkSize < n := by
          rcases Nat.lt_or_ge kMaxChunkSize n with h | h
          · exact h
          · rw [Nat.min_eq_right h] at hrest; omega
        intro c hc
        rw [List.dropLast_cons₂] at hc
        rcases List.mem_cons.mp hc with hc | hc
        · rw [hc, genRandBytes_fst_length, Nat.min_eq_left (Nat.le_of_lt hbig)]
        · apply ihlast
          rw [hr]
          exact hc

/-- `sendBodyInChunks` on a fresh unpaused state with no pause
notifications: emits the chunks computed by the loop followed by exactly
one EOM, and ends with `respBodyLen_ = 0`, `eomSent_ = true`. -/
theorem sendBodyInChunks_drain (n : Nat) (buf : List Nat) :
    ∃ chunks buf1,
      sendBodyInChunks ⟨n, false, false⟩ buf schedFalse =
        (chunks.map TxnOut.body ++ [TxnOut.eom], ⟨0, false, true⟩, buf1) ∧
      chunkSum chunks = n ∧
      chunks.length = chunkIters n ∧
      (∀ c ∈ chunks, c.length ≤ kMaxChunkSize) ∧
      (∀ c ∈ chunks.dropLast, c.length = kMaxChunkSize) := by
  obtain ⟨hsum, hst, hlen, hle, hlast⟩ :=
    sendLoop_drain (chunkIters n) 0 n false buf rfl
  refine ⟨(sendLoop (chunkIters n) 0 ⟨n, false, false⟩ buf schedFalse).1,
    (sendLoop (chunkIters n) 0 ⟨n, false, false⟩ buf schedFalse).2.2,
    ?_, hsum, hlen, hle, hlast⟩
  unfold sendBodyInChunks
  dsimp only
  rw [hst]
  simp

theorem parseUInt_ne_nil (cs : List Char) (v : Nat) (h : parseUInt cs = some v) :
    cs ≠ [] := by
  intro hnil
  rw [hnil] at h
  simp [parseUInt] at h

/-- C1: for every requested length `L` with `1 ≤ L ≤ 10_485_760` delivered
via a GET request path `/<L>`, the handler sends the 200 response followed
by body chunks whose total character count is exactly `L`, every chunk at
most `kMaxChunkSize` (102400) characters with only the final chunk possibly
smaller, and exactly one end-of-message after the last chunk. -/
theorem randBytesGen_chunked_response_total_length
    (path : List Char) (L : Nat) (buf : List Nat)
    (hparse : parseUInt (path.drop 1) = some L)
    (h1 : 1 ≤ L) (h2 : L ≤ kMaxAllowedLength) :
    ∃ chunks buf1,
      randOnHeadersComplete path Method.get buf schedFalse =
        HROutcome.responded
          (TxnOut.headers 200 "Ok" none :: (chunks.map TxnOut.body ++ [TxnOut.eom]))
          ⟨0, false, true⟩ buf1 ∧
      chunkSum chunks = L ∧
      (∀ c ∈ chunks, c.length ≤ kMaxChunkSize) ∧
      (∀ c ∈ chunks.dropLast, c.length = kMaxChunkSize) := by
  have hdrop : path.drop 1 ≠ [] := parseUInt_ne_nil _ _ hparse
  have hlen : ¬ path.length ≤ 1 := by
    intro hle
    exact hdrop (List.drop_eq_nil_of_le hle)
  obtain ⟨chunks, buf1, hsend, hsum, hcl, hle', hlast⟩ := sendBodyInChunks_drain L buf
  refine ⟨chunks, buf1, ?_, hsum, hle', hlast⟩
  unfold randOnHeadersComplete
  rw [if_neg hlen, hparse]
  have hnotbig : ¬ L > kMaxAllowedLength := by omega
  dsimp only
  rw [if_neg hnotbig, if_pos rfl]
  rw [hsend]

/-- Witness for C1 at the concrete request `/5`. -/
theorem randBytesGen_chunked_response_total_length_witness :
    parseUInt (("/5".toList).drop 1) = some 5 ∧ 1 ≤ 5 ∧ 5 ≤ kMaxAllowedLength ∧
    (∃ chunks buf1,
      randOnHeadersComplete ("/5".toList) Method.get [] schedFalse =
        HROutcome.responded
          (TxnOut.headers 200 "Ok" none :: (chunks.map TxnOut.body ++ [TxnOut.eom]))
          ⟨0, false, true⟩ buf1 ∧
      chunkSum chunks = 5 ∧
      (∀ c ∈ chunks, c.length ≤ kMaxChunkSize) ∧
      (∀ c ∈ chunks.dropLast, c.length = kMaxChunkSize)) :=
  ⟨by decide, by decide, by decide,
    randBytesGen_chunked_response_total_length ("/5".toList) 5 []
      (by decide) (by decide) (by decide)⟩

/-! Counting helpers and their algebra. -/

theorem countEom_append (l1 l2 : List TxnOut) :
    countEom (l1 ++ l2) = countEom l1 + countEom l2 := by
  simp [countEom, List.filter_append]

theorem countBody_append (l1 l2 : List TxnOut) :
    countBody (l1 ++ l2) = countBody l1 + countBody l2 := by
  simp [countBody, List.filter_append]

theorem totalHex_append (l1 l2 : List TxnOut) :
    totalHex (l1 ++ l2) = totalHex l1 + totalHex l2 := by
  simp [totalHex]

theorem countEom_map_body (cs : List (List Char)) :
    countEom (cs.map TxnOut.body) = 0 := by
  induction cs with
  | nil => rfl
  | cons c cs ih => simpa [countEom, List.filter, isEom] using ih

theorem totalHex_map_body (cs : List (List Char)) :
    totalHex (cs.map TxnOut.body) = chunkSum cs := by
  induction cs with
  | nil => rfl
  | cons c cs ih => simp [totalHex, chunkSum, hexCount] at ih ⊢; omega

/-! Behavior of `sendBodyInChunks` and the callback step relation. -/

theorem sendBodyInChunks_paused (s : RandState) (buf : List Nat)
    (sched : Nat → Bool) (h : s.paused = true) :
    sendBodyInChunks s buf sched = ([], s, buf) := by
  unfold sendBodyInChunks
  rw [sendLoop_paused _ _ _ _ _ h]
  simp [h]

theorem sendBodyInChunks_conserve (s : RandState) (buf : List Nat)
    (sched : Nat → Bool) :
    totalHex (sendBodyInChunks s buf sched).1
        + (sendBodyInChunks s buf sched).2.1.respBodyLen = s.respBodyLen := by
  obtain ⟨hsum, _⟩ := sendLoop_conserve (chunkIters s.respBodyLen) 0 s buf sched
  unfold sendBodyInChunks
  dsimp only
  split
  · rename_i hguard
    dsimp only
    simp only [totalHex_append, totalHex_map_body]
    have h0 : totalHex [TxnOut.eom] = 0 := rfl
    omega
  · dsimp only
    simp only [totalHex_map_body]
    omega

theorem sendBodyInChunks_eom (s : RandState) (buf : List Nat) (sched : Nat → Bool) :
    (s.eomSent = true → countEom (sendBodyInChunks s buf sched).1 = 0 ∧
      (sendBodyInChunks s buf sched).2.1.eomSent = true) ∧
    countEom (sendBodyInChunks s buf sched).1 ≤ 1 ∧
    (countEom (sendBodyInChunks s buf sched).1 = 1 →
      s.eomSent = false ∧ (sendBodyInChunks s buf sched).2.1.eomSent = true ∧
      (sendBodyInChunks s buf sched).2.1.respBodyLen = 0 ∧
      (sendBodyInChunks s buf sched).2.1.paused = false) := by
  obtain ⟨_, heom⟩ := sendLoop_conserve (chunkIters s.respBodyLen) 0 s buf sched
  unfold sendBodyInChunks
  dsimp only
  split
  · rename_i hguard
    obtain ⟨hgp, hge, hgr⟩ := hguard
    dsimp only
    have hcnt : countEom ((sendLoop (chunkIters s.respBodyLen) 0 s buf sched).1.map
        TxnOut.body ++ [TxnOut.eom]) = 1 := by
      rw [countEom_append, countEom_map_body]
      rfl
    refine ⟨?_, ?_, ?_⟩
    · intro hs
      rw [hs] at heom
      rw [heom] at hge
      cases hge
    · omega
    · intro _
      exact ⟨by rw [← heom]; exact hge, rfl, hgr, hgp⟩
  · dsimp only
    have hcnt : countEom ((sendLoop (chunkIters s.respBodyLen) 0 s buf sched).1.map
        TxnOut.body) = 0 := countEom_map_body _
    refine ⟨?_, ?_, ?_⟩
    · intro hs
      exact ⟨hcnt, by rw [heom]; exact hs⟩
    · omega
    · intro h1
      omega

theorem sendBodyInChunks_eomSent_mono (s : RandState) (buf : List Nat)
    (sched : Nat → Bool) (h : s.eomSent = true) :
    (sendBodyInChunks s buf sched).2.1.eomSent = true :=
  ((sendBodyInChunks_eom s buf sched).1 h).2

/-- While the handler is paused, a non-resume callback emits nothing,
leaves the buffer alone and keeps the handler paused. -/
theorem stepREv_paused (s : RandState) (buf : List Nat) (e : REvent)
    (hp : s.paused = true) (hr : isResume e = false) :
    (stepREv s buf e).1 = [] ∧ (stepREv s buf e).2.1.paused = true ∧
    (stepREv s buf e).2.2 = buf := by
  cases e with
  | onBody sched => rw [stepREv, sendBodyInChunks_paused s buf sched hp]; exact ⟨rfl, hp, rfl⟩
  | onEOMEv => exact ⟨rfl, hp, rfl⟩
  | onEgressPaused => exact ⟨rfl, rfl, rfl⟩
  | onEgressResumed sched => simp [isResume] at hr

theorem stepREv_conserve (s : RandState) (buf : List Nat) (e : REvent) :
    totalHex (stepREv s buf e).1 + (stepREv s buf e).2.1.respBodyLen = s.respBodyLen := by
  cases e with
  | onBody sched => exact sendBodyInChunks_conserve s buf sched
  | onEOMEv =>
    have h0 : totalHex (stepREv s buf REvent.onEOMEv).1 = 0 := rfl
    have h1 : (stepREv s buf REvent.onEOMEv).2.1.respBodyLen = s.respBodyLen := rfl
    omega
  | onEgressPaused =>
    have h0 : totalHex (stepREv s buf REvent.onEgressPaused).1 = 0 := rfl
    have h1 : (stepREv s buf REvent.onEgressPaused).2.1.respBodyLen = s.respBodyLen := rfl
    omega
  | onEgressResumed sched => exact sendBodyInChunks_conserve _ buf sched

theorem runREv_conserve (evs : List REvent) : ∀ (s : RandState) (buf : List Nat),
    totalHex (runREv s buf evs).1 + (runREv s buf evs).2.1.respBodyLen = s.respBodyLen := by
  induction evs with
  | nil =>
    intro s buf
    have h0 : totalHex (runREv s buf []).1 = 0 := rfl
    have h1 : (runREv s buf []).2.1.respBodyLen = s.respBodyLen := rfl
    omega
  | cons e evs ih =>
    intro s buf
    have h1 := stepREv_conserve s buf e
    have h2 := ih (stepREv s buf e).2.1 (stepREv s buf e).2.2
    simp only [runREv, totalHex_append]
    omega

theorem runREv_paused_silent (evs : List REvent) : ∀ (s : RandState) (buf : List Nat),
    s.paused = true → (∀ e ∈ evs, isResume e = false) →
    (runREv s buf evs).1 = [] := by
  induction evs with
  | nil => intro s buf _ _; rfl
  | cons e evs ih =>
    intro s buf hp hnr
    obtain ⟨h1, h2, h3⟩ := stepREv_paused s buf e hp (hnr e (List.mem_cons_self e evs))
    have := ih (stepREv s buf e).2.1 (stepREv s buf e).2.2 h2
      (fun e' he' => hnr e' (List.mem_cons_of_mem e he'))
    simp only [runREv, h1, this, List.nil_append]

/-- C2: for every interleaving of emission steps with pause and resume
notifications, from any handler state: (1) the number of body characters
emitted plus the remaining length always equals the starting remaining
length (so, from a fresh request state, emitted + remaining = L at every
point); (2) while paused, no body chunk (in fact no command at all) is
emitted until a resume notification arrives; (3) a resume notification
clears `paused_` and re-invokes the emission algorithm on the current
remaining length. -/
theorem randBytesGen_pause_resume_invariant (s : RandState) (buf : List Nat)
    (evs : List REvent) :
    (totalHex (runREv s buf evs).1 + (runREv s buf evs).2.1.respBodyLen
        = s.respBodyLen) ∧
    (s.paused = true → (∀ e ∈ evs, isResume e = false) → (runREv s buf evs).1 = []) ∧
    (∀ sched, stepREv s buf (REvent.onEgressResumed sched) =
        sendBodyInChunks { s with paused := false } buf sched) :=
  ⟨runREv_conserve evs s buf, runREv_paused_silent evs s buf, fun _ => rfl⟩

/-- Witness for C2 at a concrete paused state and event list. -/
theorem randBytesGen_pause_resume_invariant_witness :
    (⟨5, true, false⟩ : RandState).paused = true ∧
    (runREv ⟨5, true, false⟩ [] [REvent.onEgressPaused, REvent.onBody schedFalse]).1 = [] :=
  ⟨rfl, (randBytesGen_pause_resume_invariant ⟨5, true, false⟩ []
      [REvent.onEgressPaused, REvent.onBody schedFalse]).2.1 rfl
    (by
      intro e he
      rcases List.mem_cons.mp he with h | h
      · rw [h]; rfl
      · rcases List.mem_cons.mp h with h' | h'
        · rw [h']; rfl
        · cases h')⟩

theorem stepREv_eom (s : RandState) (buf : List Nat) (e : REvent) :
    (s.eomSent = true → countEom (stepREv s buf e).1 = 0 ∧
      (stepREv s buf e).2.1.eomSent = true) ∧
    countEom (stepREv s buf e).1 ≤ 1 ∧
    (countEom (stepREv s buf e).1 = 1 →
      s.eomSent = false ∧ (stepREv s buf e).2.1.eomSent = true ∧
      (stepREv s buf e).2.1.respBodyLen = 0 ∧ (stepREv s buf e).2.1.paused = false) := by
  cases e with
  | onBody sched => exact sendBodyInChunks_eom s buf sched
  | onEOMEv =>
    have h0 : countEom (stepREv s buf REvent.onEOMEv).1 = 0 := rfl
    exact ⟨fun hs => ⟨h0, hs⟩, by omega, fun h => by omega⟩
  | onEgressPaused =>
    have h0 : countEom (stepREv s buf REvent.onEgressPaused).1 = 0 := rfl
    exact ⟨fun hs => ⟨h0, hs⟩, by omega, fun h => by omega⟩
  | onEgressResumed sched => exact sendBodyInChunks_eom { s with paused := false } buf sched

theorem runREv_eom_le_one (evs : List REvent) : ∀ (s : RandState) (buf : List Nat),
    (s.eomSent = true → countEom (runREv s buf evs).1 = 0 ∧
      (runREv s buf evs).2.1.eomSent = true) ∧
    countEom (runREv s buf evs).1 ≤ 1 := by
  induction evs with
  | nil =>
    intro s buf
    have h0 : countEom (runREv s buf []).1 = 0 := rfl
    exact ⟨fun hs => ⟨h0, hs⟩, by omega⟩
  | cons e evs ih =>
    intro s buf
    obtain ⟨hstep1, hstep2, hstep3⟩ := stepREv_eom s buf e
    obtain ⟨ih1, ih2⟩ := ih (stepREv s buf e).2.1 (stepREv s buf e).2.2
    simp only [runREv, countEom_append]
    constructor
    · intro hs
      obtain ⟨ha, hb⟩ := hstep1 hs
      obtain ⟨hc, hd⟩ := ih1 hb
      exact ⟨by omega, hd⟩
    · by_cases hcnt : countEom (stepREv s buf e).1 = 1
      · obtain ⟨_, hb, _, _⟩ := hstep3 hcnt
        obtain ⟨hc, _⟩ := ih1 hb
        omega
      · omega

/-- C3: across every sequence of callbacks, `eomSent` goes from false to
true at most once, the single EOM command is emitted exactly at that
transition and only into a state with `remainingLength = 0` and
`paused = false`, and no second end-of-message is ever sent: a whole run
starting with `eomSent = false` emits at most one EOM, a run starting
with `eomSent = true` emits none, and any single callback that emits an
EOM starts with `eomSent = false` and ends with `eomSent = true`,
`respBodyLen = 0` and `paused = false`. -/
theorem randBytesGen_eom_exactly_once (s : RandState) (buf : List Nat)
    (e : REvent) (evs : List REvent) :
    (s.eomSent = false → countEom (runREv s buf evs).1 ≤ 1) ∧
    (s.eomSent = true → countEom (runREv s buf evs).1 = 0) ∧
    countEom (stepREv s buf e).1 ≤ 1 ∧
    (countEom (stepREv s buf e).1 = 1 →
      s.eomSent = false ∧ (stepREv s buf e).2.1.eomSent = true ∧
      (stepREv s buf e).2.1.respBodyLen = 0 ∧ (stepREv s buf e).2.1.paused = false) := by
  obtain ⟨hrun1, hrun2⟩ := runREv_eom_le_one evs s buf
  obtain ⟨_, hstep2, hstep3⟩ := stepREv_eom s buf e
  exact ⟨fun _ => hrun2, fun hs => (hrun1 hs).1, hstep2, hstep3⟩

/-- Witness for C3 at a concrete state: a fresh zero-length state sends its
one EOM on `onBody` and the run emits exactly one EOM overall. -/
theorem randBytesGen_eom_exactly_once_witness :
    (⟨0, false, false⟩ : RandState).eomSent = false ∧
    countEom (runREv ⟨0, false, false⟩ [] [REvent.onBody schedFalse]).1 ≤ 1 ∧
    (countEom (stepREv ⟨0, false, false⟩ [] (REvent.onBody schedFalse)).1 = 1 →
      (⟨0, false, false⟩ : RandState).eomSent = false ∧
      (stepREv ⟨0, false, false⟩ [] (REvent.onBody schedFalse)).2.1.eomSent = true ∧
      (stepREv ⟨0, false, false⟩ [] (REvent.onBody schedFalse)).2.1.respBodyLen = 0 ∧
      (stepREv ⟨0, false, false⟩ [] (REvent.onBody schedFalse)).2.1.paused = false) :=
  ⟨rfl,
    (randBytesGen_eom_exactly_once ⟨0, false, false⟩ [] (REvent.onBody schedFalse)
      [REvent.onBody schedFalse]).1 rfl,
    (randBytesGen_eom_exactly_once ⟨0, false, false⟩ [] (REvent.onBody schedFalse)
      [REvent.onBody schedFalse]).2.2.2⟩

theorem countBody_map_body (cs : List (List Char)) :
    countBody (cs.map TxnOut.body) = cs.length := by
  induction cs with
  | nil => rfl
  | cons c cs ih => simp [countBody, List.filter, isBodyOut] at ih ⊢; omega

/-- Counterexample to C4 as stated: after the oversize 400 for
`/10485761`, `respBodyLen_` remains set to the oversize value and nothing
disables the emitter, so a subsequent `onBody` callback does emit
generated random-hex body chunks on the same transaction. -/
theorem randBytesGen_oversize_claim_cex :
    randOnHeadersComplete ("/10485761".toList) Method.get [] schedFalse =
      HROutcome.responded (sendErrorOut kErrorMsg.toList)
        ⟨10485761, false, false⟩ [] ∧
    0 < countBody (runREv ⟨10485761, false, false⟩ [] [REvent.onBody schedFalse]).1 := by
  constructor
  · decide
  · obtain ⟨chunks, buf1, hsend, _, hcl, _, _⟩ := sendBodyInChunks_drain 10485761 []
    have hout : (runREv ⟨10485761, false, false⟩ [] [REvent.onBody schedFalse]).1
        = (sendBodyInChunks ⟨10485761, false, false⟩ [] schedFalse).1 ++ [] := rfl
    rw [hout, hsend]
    dsimp only
    rw [List.append_nil, countBody_append, countBody_map_body]
    have hpos : 0 < chunkIters 10485761 := chunkIters_pos _ (by omega)
    omega

/-- C4 amended: for every parsed length `L > kMaxAllowedLength`, the
response to the request itself is the 400 with the fixed oversize message
and no generated body chunk and no EOM is emitted during header
processing; however `respBodyLen_` remains set to `L`, so the claim's
further stipulation (no chunk regardless of later `onBody` or
`onEgressResumed` callbacks) does not hold of the code. -/
theorem randBytesGen_oversize_response_400
    (path : List Char) (L : Nat) (buf : List Nat) (m : Method) (sched : Nat → Bool)
    (hparse : parseUInt (path.drop 1) = some L)
    (hbig : L > kMaxAllowedLength) :
    randOnHeadersComplete path m buf sched =
      HROutcome.responded (sendErrorOut kErrorMsg.toList) ⟨L, false, false⟩ buf ∧
    sendErrorOut kErrorMsg.toList =
      [TxnOut.headers 400 "Bad Request" (some true), TxnOut.body kErrorMsg.toList] ∧
    countBody (sendErrorOut kErrorMsg.toList) = 1 ∧
    countEom (sendErrorOut kErrorMsg.toList) = 0 := by
  have hdrop : path.drop 1 ≠ [] := parseUInt_ne_nil _ _ hparse
  have hlen : ¬ path.length ≤ 1 := by
    intro hle
    exact hdrop (List.drop_eq_nil_of_le hle)
  refine ⟨?_, rfl, rfl, rfl⟩
  unfold randOnHeadersComplete
  rw [if_neg hlen, hparse]
  dsimp only
  rw [if_pos hbig]

/-- Witness for the amended C4 at the concrete request `/10485761`. -/
theorem randBytesGen_oversize_response_400_witness :
    parseUInt (("/10485761".toList).drop 1) = some 10485761 ∧
    10485761 > kMaxAllowedLength ∧
    randOnHeadersComplete ("/10485761".toList) Method.post [] schedFalse =
      HROutcome.responded (sendErrorOut kErrorMsg.toList) ⟨10485761, false, false⟩ [] :=
  ⟨by decide, by decide,
    (randBytesGen_oversize_response_400 ("/10485761".toList) 10485761 []
      Method.post schedFalse (by decide) (by decide)).1⟩

/-- Counterexample to C5 as stated: for the path `/` (length 1, explicitly
included in the claim) the handler does not produce a 400 error response;
the `CHECK(msg->getPath().size() > 1)` aborts the process instead. -/
theorem randBytesGen_root_path_cex :
    randOnHeadersComplete ("/".toList) Method.get [] schedFalse =
      HROutcome.checkFailed ∧
    randOnHeadersComplete ("/".toList) Method.get [] schedFalse ≠
      HROutcome.parseError (sendErrorOut (kInvalidUrlMsg ("/".toList))) := by decide

/-- C5 amended: for every request path of length at least 2 whose tail
fails to parse as a decimal byte count, the handler responds 400 with the
descriptive message and keep-alive true, emits no generated body and no
EOM, leaving the transaction usable; paths of length 0 or 1 (such as `/`)
instead abort on the `CHECK`. -/
theorem randBytesGen_unparsable_path_400
    (path : List Char) (m : Method) (buf : List Nat) (sched : Nat → Bool)
    (hlen : 1 < path.length)
    (hparse : parseUInt (path.drop 1) = none) :
    randOnHeadersComplete path m buf sched =
      HROutcome.parseError (sendErrorOut (kInvalidUrlMsg path)) ∧
    sendErrorOut (kInvalidUrlMsg path) =
      [TxnOut.headers 400 "Bad Request" (some true),
       TxnOut.body (kInvalidUrlMsg path)] ∧
    countEom (sendErrorOut (kInvalidUrlMsg path)) = 0 ∧
    countBody (sendErrorOut (kInvalidUrlMsg path)) = 1 := by
  refine ⟨?_, rfl, rfl, rfl⟩
  unfold randOnHeadersComplete
  rw [if_neg (by omega), hparse]

/-- Witness for the amended C5 at the concrete request `/x`. -/
theorem randBytesGen_unparsable_path_400_witness :
    1 < ("/x".toList).length ∧
    parseUInt (("/x".toList).drop 1) = none ∧
    randOnHeadersComplete ("/x".toList) Method.get [] schedFalse =
      HROutcome.parseError (sendErrorOut (kInvalidUrlMsg ("/x".toList))) :=
  ⟨by decide, by decide,
    (randBytesGen_unparsable_path_400 ("/x".toList) Method.get [] schedFalse
      (by decide) (by decide)).1⟩

/-- C6: for every chunk size `n ≥ 1`, `genRandBytes` obtains exactly
`n / 2 + 1` raw random bytes, hex-encodes them into `2 * (n / 2 + 1) ≥ n`
characters (for even and odd `n` alike), and truncates the result to
exactly `n` characters; the returned chunk always has length exactly `n`. -/
theorem genRandBytes_exact_length (n : Nat) (buf : List Nat) (h : 1 ≤ n) :
    ((randBytes buf (n / 2 + 1)).1).length = n / 2 + 1 ∧
    (hexlify (randBytes buf (n / 2 + 1)).1).length = 2 * (n / 2 + 1) ∧
    n ≤ 2 * (n / 2 + 1) ∧
    (genRandBytes buf n).1 = (hexlify (randBytes buf (n / 2 + 1)).1).take n ∧
    ((genRandBytes buf n).1).length = n := by
  refine ⟨randBytes_fst_length buf _, ?_, by omega, genRandBytes_fst buf n,
    genRandBytes_fst_length buf n⟩
  rw [hexlify_length, randBytes_fst_length]

/-- Witness for C6 at the concrete chunk size 5. -/
theorem genRandBytes_exact_length_witness :
    1 ≤ 5 ∧ ((genRandBytes [] 5).1).length = 5 :=
  ⟨by decide, (genRandBytes_exact_length 5 [] (by decide)).2.2.2.2⟩

/-! Determinism of the generated bytes: the thread-local buffer only grows,
and `randBytes` always returns the window at offset 0, so rerunning the
emitter on the grown buffer reproduces the same output. -/

theorem randBytes_rerun (buf : List Nat) (m : Nat) (e : List Nat) :
    randBytes ((randBytes buf m).2 ++ e) m
      = (((randBytes buf m).2).take m, (randBytes buf m).2 ++ e) := by
  have hlen : m ≤ ((randBytes buf m).2).length := by
    rw [randBytes_snd_length]; omega
  rw [randBytes_stable _ _ (by rw [List.length_append]; omega)]
  rw [List.take_append_of_le_length hlen]

theorem genRandBytes_rerun (buf : List Nat) (n : Nat) (e : List Nat) :
    genRandBytes ((genRandBytes buf n).2 ++ e) n
      = ((genRandBytes buf n).1, (genRandBytes buf n).2 ++ e) := by
  have hr : randBytes ((genRandBytes buf n).2 ++ e) (n / 2 + 1)
      = ((randBytes buf (n / 2 + 1)).1, (genRandBytes buf n).2 ++ e) := by
    rw [genRandBytes_snd, randBytes_rerun buf (n / 2 + 1) e, randBytes_fst]
  rw [Prod.ext_iff]
  constructor
  · rw [genRandBytes_fst, hr]
    dsimp only
    rw [← genRandBytes_fst]
  · rw [genRandBytes_snd, hr]

theorem genRandBytes_stable_next (buf : List Nat) (n : Nat) :
    genRandBytes ((genRandBytes buf n).2) n
      = ((genRandBytes buf n).1, (genRandBytes buf n).2) := by
  have := genRandBytes_rerun buf n []
  rwa [List.append_nil] at this

/-- Rerunning the chunk loop on the final buffer of a previous identical
run reproduces the same chunks, state and buffer. -/
theorem sendLoop_rerun (fuel : Nat) : ∀ (i : Nat) (s : RandState) (buf : List Nat),
    sendLoop fuel i s ((sendLoop fuel i s buf schedFalse).2.2) schedFalse
      = sendLoop fuel i s buf schedFalse := by
  induction fuel with
  | zero => intro i s buf; rfl
  | succ fuel ih =>
    intro i s buf
    by_cases hp : s.paused = true
    · have h1 : sendLoop (fuel + 1) i s buf schedFalse = ([], s, buf) :=
        sendLoop_paused _ _ _ _ _ hp
      rw [h1]
      exact h1
    · have hp' : s.paused = false := by simpa using hp
      rw [sendLoop_step fuel i s buf schedFalse hp']
      dsimp only
      obtain ⟨e, he⟩ := sendLoop_buf_ext fuel (i + 1)
        ⟨s.respBodyLen - min kMaxChunkSize s.respBodyLen, schedFalse i, s.eomSent⟩
        (genRandBytes buf (min kMaxChunkSize s.respBodyLen)).2 schedFalse
      rw [sendLoop_step fuel i s _ schedFalse hp']
      rw [he, genRandBytes_rerun buf (min kMaxChunkSize s.respBodyLen) e]
      dsimp only
      rw [← he, ih (i + 1)
        ⟨s.respBodyLen - min kMaxChunkSize s.respBodyLen, schedFalse i, s.eomSent⟩
        (genRandBytes buf (min kMaxChunkSize s.respBodyLen)).2]

theorem sendBodyInChunks_buf (s : RandState) (buf : List Nat) (sched : Nat → Bool) :
    (sendBodyInChunks s buf sched).2.2
      = (sendLoop (chunkIters s.respBodyLen) 0 s buf sched).2.2 := by
  unfold sendBodyInChunks
  dsimp only
  split <;> rfl

/-- Rerunning `sendBodyInChunks` from the same fresh state on the grown
buffer reproduces the identical output, state and buffer. -/
theorem sendBodyInChunks_rerun (s : RandState) (buf : List Nat) :
    sendBodyInChunks s ((sendBodyInChunks s buf schedFalse).2.2) schedFalse
      = sendBodyInChunks s buf schedFalse := by
  rw [sendBodyInChunks_buf]
  unfold sendBodyInChunks
  dsimp only
  rw [sendLoop_rerun]

/-- Every chunk the loop emits (on the undisturbed schedule) is at most
`min kMaxChunkSize n` characters, and every full-size chunk equals the one
value `genRandBytes` produces for `kMaxChunkSize` on the starting buffer. -/
theorem sendLoop_full_chunks (fuel : Nat) : ∀ (i n : Nat) (e0 : Bool)
    (buf : List Nat) (c : List Char),
    c ∈ (sendLoop fuel i ⟨n, false, e0⟩ buf schedFalse).1 →
    c.length ≤ min kMaxChunkSize n ∧
    (c.length = kMaxChunkSize → c = (genRandBytes buf kMaxChunkSize).1) := by
  induction fuel with
  | zero => intro i n e0 buf c hc; cases hc
  | succ fuel ih =>
    intro i n e0 buf c hc
    rw [sendLoop_step fuel i ⟨n, false, e0⟩ buf schedFalse rfl] at hc
    dsimp only at hc
    simp only [schedFalse] at hc
    rcases List.mem_cons.mp hc with hc | hc
    · subst hc
      refine ⟨Nat.le_of_eq (genRandBytes_fst_length _ _), fun hfull => ?_⟩
      rw [genRandBytes_fst_length] at hfull
      rw [hfull]
    · obtain ⟨hle, hfullval⟩ := ih (i + 1) (n - min kMaxChunkSize n) e0
        (genRandBytes buf (min kMaxChunkSize n)).2 c hc
      constructor
      · calc c.length ≤ min kMaxChunkSize (n - min kMaxChunkSize n) := hle
          _ ≤ min kMaxChunkSize n := by omega
      · intro hfull
        have hn' : kMaxChunkSize ≤ n - min kMaxChunkSize n := by
          have := hle
          rw [hfull] at this
          omega
        have hmin : min kMaxChunkSize n = kMaxChunkSize := by omega
        rw [hfullval hfull, hmin, genRandBytes_stable_next]

/-- C9: the generated content is deterministic, not random across runs.
(1) Rerunning the same fresh request (same length, same worker thread, so
the grown thread-local buffer of the first run) reproduces byte-for-byte
identical output, because `randBytes` default-constructs its engine with a
fixed seed on each call and always returns the window at offset 0 of the
monotonically growing buffer.  (2) Within one response, every full-size
chunk has content identical to every other full-size chunk. -/
theorem randBytes_deterministic_output (L : Nat) (buf : List Nat) :
    sendBodyInChunks ⟨L, false, false⟩
        ((sendBodyInChunks ⟨L, false, false⟩ buf schedFalse).2.2) schedFalse
      = sendBodyInChunks ⟨L, false, false⟩ buf schedFalse ∧
    (∀ c1 c2 : List Char,
      TxnOut.body c1 ∈ (sendBodyInChunks ⟨L, false, false⟩ buf schedFalse).1 →
      TxnOut.body c2 ∈ (sendBodyInChunks ⟨L, false, false⟩ buf schedFalse).1 →
      c1.length = kMaxChunkSize → c2.length = kMaxChunkSize → c1 = c2) := by
  constructor
  · exact sendBodyInChunks_rerun ⟨L, false, false⟩ buf
  · have hmem : ∀ c : List Char,
        TxnOut.body c ∈ (sendBodyInChunks ⟨L, false, false⟩ buf schedFalse).1 →
        c ∈ (sendLoop (chunkIters L) 0 ⟨L, false, false⟩ buf schedFalse).1 := by
      intro c hc
      unfold sendBodyInChunks at hc
      dsimp only at hc
      split at hc
      · rcases List.mem_append.mp hc with hc | hc
        · obtain ⟨a, ha, hab⟩ := List.mem_map.mp hc
          cases hab
          exact ha
        · rcases List.mem_cons.mp hc with hc | hc
          · cases hc
          · cases hc
      · obtain ⟨a, ha, hab⟩ := List.mem_map.mp hc
        cases hab
        exact ha
    intro c1 c2 h1 h2 hl1 hl2
    have hv1 := (sendLoop_full_chunks (chunkIters L) 0 L false buf c1 (hmem c1 h1)).2 hl1
    have hv2 := (sendLoop_full_chunks (chunkIters L) 0 L false buf c2 (hmem c2 h2)).2 hl2
    rw [hv1, hv2]

/-- Witness for C9 at the concrete request length `kMaxChunkSize` (one
full-size chunk) on an empty thread-local buffer. -/
theorem randBytes_deterministic_output_witness :
    TxnOut.body ((genRandBytes [] kMaxChunkSize).1)
        ∈ (sendBodyInChunks ⟨kMaxChunkSize, false, false⟩ [] schedFalse).1 ∧
    ((genRandBytes [] kMaxChunkSize).1).length = kMaxChunkSize ∧
    (genRandBytes [] kMaxChunkSize).1 = (genRandBytes [] kMaxChunkSize).1 := by
  have hmem : TxnOut.body ((genRandBytes [] kMaxChunkSize).1)
      ∈ (sendBodyInChunks ⟨kMaxChunkSize, false, false⟩ [] schedFalse).1 := by
    show TxnOut.body ((genRandBytes [] kMaxChunkSize).1)
        ∈ [TxnOut.body ((genRandBytes [] kMaxChunkSize).1), TxnOut.eom]
    exact List.mem_cons_self _ _
  have hlen : ((genRandBytes [] kMaxChunkSize).1).length = kMaxChunkSize :=
    genRandBytes_fst_length [] kMaxChunkSize
  exact ⟨hmem, hlen,
    (randBytes_deterministic_output kMaxChunkSize []).2 _ _ hmem hmem hlen hlen⟩

/-- C10: a GET for path `/0` (length 0, below the spec's stated lower bound)
is accepted: the handler sends a 200 response, emits zero body chunks, and
sends exactly one end-of-message immediately. -/
theorem randBytesGen_zero_length_ok :
    randOnHeadersComplete ("/0".toList) Method.get [] schedFalse =
      HROutcome.responded [TxnOut.headers 200 "Ok" none, TxnOut.eom]
        ⟨0, false, true⟩ [] ∧
    countBody [TxnOut.headers 200 "Ok" none, TxnOut.eom] = 0 ∧
    countEom [TxnOut.headers 200 "Ok" none, TxnOut.eom] = 1 := by decide

/-! EchoHandler: the stripped response headers are exactly the prefixed
copies of the request headers. -/

theorem xecho_not_perhop (name : List Char) :
    perHopHeaderNames.contains (lowerName ("x-echo-".toList ++ name)) = false := rfl

theorem stripPerHopHeaders_echo (hs : List (List Char × String)) :
    stripPerHopHeaders (echoXHeaders hs) = echoXHeaders hs := by
  unfold stripPerHopHeaders
  rw [List.filter_eq_self]
  intro a ha
  obtain ⟨p, _, hp⟩ := List.mem_map.mp ha
  rw [← hp]
  dsimp only
  rw [xecho_not_perhop]
  rfl

/-- C7: for every request header mapping, Echo's 200 response carries
exactly the `x-echo-`-prefixed copy of every request header (the per-hop
stripping removes none of them) with keep-alive marked; and exactly when
the request's protocol version equals the legacy 0.9 marker, the fixed
decorative footer is sent as the final body chunk before the single
end-of-message. -/
theorem echo_headers_and_footer (msg : HTTPMsgIn) :
    (echoOnHeadersComplete msg).1 =
      [EchoOut.headers 200 "Ok" (echoXHeaders msg.headers) true] ∧
    stripPerHopHeaders (echoXHeaders msg.headers) = echoXHeaders msg.headers ∧
    (msg.version = kHTTPVersion09 →
      echoOnEOM (echoOnHeadersComplete msg).2 =
        [EchoOut.body kH1QFooter.toList, EchoOut.eom]) ∧
    (msg.version ≠ kHTTPVersion09 →
      echoOnEOM (echoOnHeadersComplete msg).2 = [EchoOut.eom]) ∧
    countEomE (echoOnEOM (echoOnHeadersComplete msg).2) = 1 := by
  refine ⟨?_, stripPerHopHeaders_echo msg.headers, ?_, ?_, ?_⟩
  · unfold echoOnHeadersComplete
    rw [stripPerHopHeaders_echo]
  · intro h
    unfold echoOnHeadersComplete echoOnEOM
    simp [h]
  · intro h
    unfold echoOnHeadersComplete echoOnEOM
    simp [h]
  · unfold echoOnHeadersComplete echoOnEOM
    by_cases h : msg.version = kHTTPVersion09 <;> simp [h, countEomE, isEomE]

/-- Witness for C7 at a concrete legacy-marker request with one header. -/
theorem echo_headers_and_footer_witness :
    ((⟨[("host".toList, "a")], (0, 9)⟩ : HTTPMsgIn).version = kHTTPVersion09) ∧
    echoOnEOM (echoOnHeadersComplete ⟨[("host".toList, "a")], (0, 9)⟩).2 =
      [EchoOut.body kH1QFooter.toList, EchoOut.eom] :=
  ⟨rfl, (echo_headers_and_footer ⟨[("host".toList, "a")], (0, 9)⟩).2.2.1 rfl⟩

/-! WaitReleaseHandler: release semantics. -/

/-- C8: `release(id)` on an id with no registered handler is a silent
no-op (registry and all transaction logs unchanged, nothing emitted);
`release(id)` on a registered id removes the entry and appends to that
transaction, on its owning execution context, exactly one terminating body
chunk -- the fixed literal `"released\n"` -- followed by exactly one
end-of-message. -/
theorem waitRelease_release_spec (reg : List (Nat × List TxnOut)) (rid : Nat) :
    (reg.find? (fun p => p.1 == rid) = none → coordRelease reg rid = (reg, none)) ∧
    (∀ entry, reg.find? (fun p => p.1 == rid) = some entry →
      coordRelease reg rid =
        (reg.filter (fun q => q.1 != rid), some (entry.2 ++ waitReleaseActions)) ∧
      waitReleaseActions = [TxnOut.body releasedChunk, TxnOut.eom] ∧
      releasedChunk = ("released\n").toList ∧
      countBody waitReleaseActions = 1 ∧
      countEom waitReleaseActions = 1) := by
  constructor
  · intro h
    unfold coordRelease
    rw [h]
  · intro entry h
    unfold coordRelease
    rw [h]
    exact ⟨rfl, rfl, rfl, rfl, rfl⟩

/-- Witness for C8 on a concrete registry: releasing id 7 (registered)
appends the terminating chunk and EOM, and releasing id 8 (absent) is a
no-op. -/
theorem waitRelease_release_spec_witness :
    ([(7, [TxnOut.headers 200 "OK" (some true)])].find?
        (fun p => p.1 == 7) = some (7, [TxnOut.headers 200 "OK" (some true)])) ∧
    coordRelease [(7, [TxnOut.headers 200 "OK" (some true)])] 7 =
      ([], some ([TxnOut.headers 200 "OK" (some true)] ++ waitReleaseActions)) ∧
    ([(7, [TxnOut.headers 200 "OK" (some true)])].find?
        (fun p => p.1 == 8) = none) ∧
    coordRelease [(7, [TxnOut.headers 200 "OK" (some true)])] 8 =
      ([(7, [TxnOut.headers 200 "OK" (some true)])], none) :=
  ⟨by decide,
    (by
      have h := ((waitRelease_release_spec [(7, [TxnOut.headers 200 "OK" (some true)])] 7).2
        (7, [TxnOut.headers 200 "OK" (some true)]) (by decide)).1
      rwa [show List.filter (fun q => q.1 != 7)
          [((7 : Nat), [TxnOut.headers 200 "OK" (some true)])] = [] from rfl] at h),
    by decide,
    (waitRelease_release_spec [(7, [TxnOut.headers 200 "OK" (some true)])] 8).1 (by decide)⟩
